import Mathlib

/-!
Verification of the courseflow schedule generator and scorer.

The definitions below are a shallow embedding of the Python sources
`scheduler/schedule_generator.py` and `scheduler/schedule_scoring.py`:

* `datetime.time` values become the `Time` structure (hour, minute) with the
  comparison order given by minutes since midnight;
* a `SectionTime` database row becomes the `SectionTime` structure; its
  `days` column is a plain string in the source (`CharField`), so iterating
  over it yields single characters — accordingly `days` is a `List Char`;
* Python floats from the scoring pipeline are modelled as real numbers, and
  the scores stored in the heap as rationals (the buffer logic only ever
  compares and negates them);
* the in-place `heapq` operations are implemented exactly as in CPython's
  `heapq.py` (`heappush`/`_siftdown`, `heapreplace`/`_siftup`), with explicit
  fuel for the loops.
-/

namespace CourseFlow

/-- Minute-resolution time of day, mirroring Python `datetime.time(hour, minute)`
as used by the `TimeField` columns. -/
structure Time where
  hour : Nat
  minute : Nat
deriving DecidableEq, Repr

/-- The function `_convert_to_minutes` from `schedule_scoring.py`:
`t.hour * 60 + t.minute`.  Comparisons of `datetime.time` values coincide with
comparisons of this value. -/
def Time.toMinutes (t : Time) : Nat :=
  t.hour * 60 + t.minute

/-- Boolean `<=` on times, as Python compares two `datetime.time` values. -/
def Time.ble (a b : Time) : Bool :=
  a.toMinutes ≤ b.toMinutes

/-- Boolean `<` on times, as Python compares two `datetime.time` values. -/
def Time.blt (a b : Time) : Bool :=
  a.toMinutes < b.toMinutes

/-- A `SectionTime` row: the `days` string (iterated character by character by
the Python code), a begin time and an end time. -/
structure SectionTime where
  days : List Char
  begin_time : Time
  end_time : Time
deriving DecidableEq, Repr

/-- A break interval as received by the generator: a dict with `begin_time`
and `end_time` keys holding `datetime.time` values. -/
structure BreakTime where
  begin_time : Time
  end_time : Time
deriving DecidableEq, Repr

/-- Truthiness of `set(time1.days) & set(time2.days)`: the two character sets
intersect iff some character of the first string occurs in the second. -/
def daysIntersect (d1 d2 : List Char) : Bool :=
  d1.any (fun c => d2.contains c)

/-- The method `ScheduleGenerator._check_conflict`: common days exist, `time1`
ends after `time2` starts and `time1` starts before `time2` ends. -/
def check_conflict (time1 time2 : SectionTime) : Bool :=
  daysIntersect time1.days time2.days
    && time2.begin_time.blt time1.end_time
    && time1.begin_time.blt time2.end_time

/-- The method `ScheduleGenerator._is_valid_addition`: every new time must
avoid a conflict with every existing time, and must not begin inside any break
interval (`new.begin_time >= break.begin_time and new.begin_time <= break.end_time`). -/
def is_valid_addition (breaks : List BreakTime) (current_schedule new_times : List SectionTime) : Bool :=
  new_times.all (fun new_time =>
    current_schedule.all (fun existing_time => !check_conflict new_time existing_time)
      && breaks.all (fun break_time =>
          !(break_time.begin_time.ble new_time.begin_time
             && new_time.begin_time.ble break_time.end_time)))

/-- The recursive part of `ScheduleGenerator._dfs` (lines 235–245): courses in
`sorted_courses` order, each course a list of `(crn, times)` pairs from
`course_sections`.  The function returns, in depth-first order, the list of
complete selections; a selection lists the `(crn, times)` pair chosen for each
course.  The base case of `_dfs` (scoring and offering to the heap) is
modelled separately by `offer_complete`. -/
def dfs (breaks : List BreakTime) (courses : List (List (Nat × List SectionTime)))
    (flat_schedule : List SectionTime) : List (List (Nat × List SectionTime)) :=
  match courses with
  | [] => [[]]
  | sections :: rest =>
    sections.foldr
      (fun s acc =>
        if is_valid_addition breaks flat_schedule s.2 then
          ((dfs breaks rest (flat_schedule ++ s.2)).map (fun choice => s :: choice)) ++ acc
        else acc)
      []

/-- A complete schedule as stored in the heap: the copy of `current_schedule`,
a mapping from CRN to the section's list of times. -/
abbrev Sched := List (Nat × List SectionTime)

/-- The wrapper class `ScheduleHeapElement`: a (negated) score together with
the schedule.  Its `__lt__` compares scores. -/
structure ScheduleHeapElement where
  score : ℚ
  schedule : Sched
deriving DecidableEq

instance : Inhabited ScheduleHeapElement := ⟨⟨0, []⟩⟩

/-- Comparison `ScheduleHeapElement.__lt__`: true when this element's stored
score is smaller. -/
def elt_lt (a b : ScheduleHeapElement) : Bool :=
  a.score < b.score

/-- Loop of CPython's `heapq._siftdown`: walk from `pos` up towards
`startpos`, moving parents greater than `newitem` down; returns the updated
list and the final position.  Fuel bounds the walk (at most `pos` steps). -/
def siftdownLoop (newitem : ScheduleHeapElement) (heap : List ScheduleHeapElement)
    (startpos pos : Nat) : Nat → List ScheduleHeapElement × Nat
  | 0 => (heap, pos)
  | fuel + 1 =>
    if startpos < pos then
      let parentpos := (pos - 1) / 2
      let parent := heap.getD parentpos default
      if elt_lt newitem parent then
        siftdownLoop newitem (heap.set pos parent) startpos parentpos fuel
      else (heap, pos)
    else (heap, pos)

/-- CPython's `heapq._siftdown`: read `newitem` at `pos`, bubble it towards
`startpos`, and write it at its final position. -/
def siftdown (heap : List ScheduleHeapElement) (startpos pos : Nat) : List ScheduleHeapElement :=
  let newitem := heap.getD pos default
  let hp := siftdownLoop newitem heap startpos pos pos
  hp.1.set hp.2 newitem

/-- CPython's `heapq.heappush`: append the item and sift it down from the last
position. -/
def heappush (heap : List ScheduleHeapElement) (item : ScheduleHeapElement) :
    List ScheduleHeapElement :=
  siftdown (heap ++ [item]) 0 heap.length

/-- Loop of CPython's `heapq._siftup`: starting at `pos`, repeatedly move the
smaller child up until reaching a leaf; returns the updated list and the final
position.  Fuel bounds the walk (child positions at least double). -/
def siftupLoop (heap : List ScheduleHeapElement) (pos childpos endpos : Nat) :
    Nat → List ScheduleHeapElement × Nat
  | 0 => (heap, pos)
  | fuel + 1 =>
    if childpos < endpos then
      let rightpos := childpos + 1
      let childpos2 :=
        if rightpos < endpos
            && !(elt_lt (heap.getD childpos default) (heap.getD rightpos default)) then
          rightpos
        else childpos
      let heap2 := heap.set pos (heap.getD childpos2 default)
      siftupLoop heap2 childpos2 (2 * childpos2 + 1) endpos fuel
    else (heap, pos)

/-- CPython's `heapq._siftup`: move the smaller-child chain up from `pos`,
place `newitem` at the vacated leaf, then sift it down towards `pos`. -/
def siftup (heap : List ScheduleHeapElement) (pos : Nat) : List ScheduleHeapElement :=
  let endpos := heap.length
  let startpos := pos
  let newitem := heap.getD pos default
  let hp := siftupLoop heap pos (2 * pos + 1) endpos endpos
  siftdown (hp.1.set hp.2 newitem) startpos hp.2

/-- CPython's `heapq.heapreplace`: return the root and the heap obtained by
writing the new item at the root and sifting up. -/
def heapreplace (heap : List ScheduleHeapElement) (item : ScheduleHeapElement) :
    ScheduleHeapElement × List ScheduleHeapElement :=
  (heap.getD 0 default, siftup (heap.set 0 item) 0)

/-- The mutable state of `ScheduleGenerator` touched by `_dfs`'s base case:
the heap, the `seen_scores` set, and `schedule_count`. -/
structure GenState where
  heap : List ScheduleHeapElement
  seen_scores : Finset ℚ
  schedule_count : Nat

/-- The initial generator state: empty heap, cleared `seen_scores`, zero
count. -/
def initState : GenState :=
  ⟨[], ∅, 0⟩

/-- Base case of `ScheduleGenerator._dfs` (lines 211–233): given the score of
a complete schedule, skip it if the score was seen; otherwise build the
element with the negated score, increment `schedule_count`, and either push
(heap not yet at `max_schedules`), replace the root (when `-score` is below
the root's stored score, removing the root's score from `seen_scores`), or
drop the element. -/
def offer_complete (max_schedules : Nat) (st : GenState) (score : ℚ)
    (current_schedule : Sched) : GenState :=
  if score ∈ st.seen_scores then st
  else
    let element : ScheduleHeapElement := ⟨-score, current_schedule⟩
    let cnt := st.schedule_count + 1
    if st.heap.length < max_schedules then
      { heap := heappush st.heap element
        seen_scores := insert score st.seen_scores
        schedule_count := cnt }
    else if element.score < (st.heap.getD 0 default).score then
      let old_score := -(st.heap.getD 0 default).score
      { heap := (heapreplace st.heap element).2
        seen_scores := insert score (st.seen_scores.erase old_score)
        schedule_count := cnt }
    else
      { st with schedule_count := cnt }

/-- Folding `offer_complete` over the stream of complete schedules produced by
the depth-first search, in order. -/
def offer_all (max_schedules : Nat) (st : GenState) (offers : List (ℚ × Sched)) : GenState :=
  offers.foldl (fun s o => offer_complete max_schedules s o.1 o.2) st

/-- The `TimePreference` dataclass of `schedule_scoring.py`. -/
structure TimePreference where
  preferred_time : String
  time_weight : ℝ
  preferred_days : Finset Char
  day_weight : ℝ

/-- Raw preference input as passed to `ScheduleScorer.__init__`: a dict whose
keys may be absent (the constructor supplies defaults via `dict.get`). -/
structure PrefInput where
  preferred_time : Option String
  time_weight : Option ℝ
  preferred_days : Option (List Char)
  day_weight : Option ℝ

/-- The constructor `ScheduleScorer.__init__`: builds the `TimePreference`
from the raw dict, defaulting `preferred_time` to "morning", both weights to
0.5 and `preferred_days` to the empty set.  No validation is performed. -/
def scorer_init (preferences : PrefInput) : TimePreference :=
  { preferred_time := preferences.preferred_time.getD "morning"
    time_weight := preferences.time_weight.getD 0.5
    preferred_days := (preferences.preferred_days.getD []).toFinset
    day_weight := preferences.day_weight.getD 0.5 }

/-- Scoring constant `TIME_DECAY_FACTOR` (0.5). -/
def TIME_DECAY_FACTOR : ℝ := 0.5

/-- Scoring constant `MIN_SCORE` (0.0001). -/
def MIN_SCORE : ℝ := 0.0001

/-- Scoring constant `MAX_MINUTES_DIFF` (240). -/
def MAX_MINUTES_DIFF : ℝ := 240

/-- The `time_ranges` dict: period name to (begin, end) `datetime.time` pair;
lookup with `dict.get` returns `none` for unknown periods. -/
def time_ranges (s : String) : Option (Time × Time) :=
  if s = "morning" then some (⟨8, 0⟩, ⟨12, 0⟩)
  else if s = "afternoon" then some (⟨12, 0⟩, ⟨16, 0⟩)
  else if s = "evening" then some (⟨16, 0⟩, ⟨20, 0⟩)
  else none

/-- The method `ScheduleScorer._calculate_time_score`: 0 on the empty
schedule or an unknown period; otherwise the mean over meetings of 0.5 for a
00:00 start, else `max(exp(-DECAY * (diff / MAX_DIFF)), MIN_SCORE)` where
`diff` is the absolute distance in minutes from the midpoint of the preferred
range. -/
noncomputable def calculate_time_score (prefs : TimePreference)
    (schedule : List SectionTime) : ℝ :=
  if schedule = [] then 0
  else
    match time_ranges prefs.preferred_time with
    | none => 0
    | some preferred_range =>
      let preferred_mid : ℝ :=
        (preferred_range.1.toMinutes : ℝ)
          + ((preferred_range.2.toMinutes : ℝ) - (preferred_range.1.toMinutes : ℝ)) / 2
      let scores := schedule.map (fun s =>
        if s.begin_time = ⟨0, 0⟩ then (0.5 : ℝ)
        else
          let section_minutes : ℝ := (s.begin_time.toMinutes : ℝ)
          let time_diff := |section_minutes - preferred_mid|
          let score := Real.exp (-TIME_DECAY_FACTOR * (time_diff / MAX_MINUTES_DIFF))
          max score MIN_SCORE)
      scores.sum / scores.length

/-- Day characters of a schedule: the `Counter` in
`ScheduleScorer._calculate_day_score` iterates `for day in section.days` for
each section, i.e. over the characters of each `days` string. -/
def flat_days (schedule : List SectionTime) : List Char :=
  schedule.flatMap (fun s => s.days)

/-- The method `ScheduleScorer._calculate_distribution_score` applied to the
day counter (represented by the underlying character list): coefficient of
variation of the counts of the five weekday codes. -/
noncomputable def calculate_distribution_score (day_chars : List Char) : ℝ :=
  if day_chars = [] then 0
  else
    let counts : List Nat := ['M', 'T', 'W', 'R', 'F'].map (fun d => day_chars.count d)
    if counts.all (fun c => c = 0) then 0
    else
      let mean : ℝ := ((counts.map (fun c => (c : ℝ))).sum) / counts.length
      if mean = 0 then 0
      else
        let variance := ((counts.map (fun c => ((c : ℝ) - mean) ^ 2)).sum) / counts.length
        let std_dev := Real.sqrt variance
        let cv := std_dev / mean
        1 / (1 + cv)

/-- The method `ScheduleScorer._calculate_preference_match_score` applied to
the day counter (represented by the underlying character list):
`total_classes` sums the counter's values (one per distinct key),
`preferred_day_classes` sums the values of keys in `preferred_days`, and the
result is `max(1 - non_preferred/total, MIN_SCORE)`, or 0 when the total is
0. -/
noncomputable def calculate_preference_match_score (prefs : TimePreference)
    (day_chars : List Char) : ℝ :=
  let total_classes := (day_chars.dedup.map (fun d => day_chars.count d)).sum
  if total_classes = 0 then 0
  else
    let preferred_day_classes :=
      ((day_chars.dedup.filter (fun d => d ∈ prefs.preferred_days)).map
        (fun d => day_chars.count d)).sum
    let non_preferred_day_classes := total_classes - preferred_day_classes
    let penalty : ℝ := (non_preferred_day_classes : ℝ) / (total_classes : ℝ)
    max (1 - penalty) MIN_SCORE

/-- The method `ScheduleScorer._calculate_day_score`: 0 on the empty
schedule; the distribution score when all five weekdays are preferred, the
preference match score otherwise. -/
noncomputable def calculate_day_score (prefs : TimePreference)
    (schedule : List SectionTime) : ℝ :=
  if schedule = [] then 0
  else
    let day_chars := flat_days schedule
    if prefs.preferred_days = ({'M', 'T', 'W', 'R', 'F'} : Finset Char) then
      calculate_distribution_score day_chars
    else
      calculate_preference_match_score prefs day_chars

/-- The method `ScheduleScorer.score_schedule`: 0 on the empty schedule, else
the weighted combination of time and day scores clamped into [0, 1]. -/
noncomputable def score_schedule (prefs : TimePreference)
    (schedule : List SectionTime) : ℝ :=
  if schedule = [] then 0
  else
    let time_score := calculate_time_score prefs schedule
    let day_score := calculate_day_score prefs schedule
    let total_score := time_score * prefs.time_weight + day_score * prefs.day_weight
    max (min total_score 1) 0

/-- Spec-side midpoint table (claim C3 wording): morning maps to 600,
afternoon to 840, evening to 1080 minutes. -/
def spec_midpoint (p : String) : Option ℝ :=
  if p = "morning" then some 600
  else if p = "afternoon" then some 840
  else if p = "evening" then some 1080
  else none

/-- Spec-side time score, following claim C3 verbatim: the mean over meetings
of 0.5 for a 00:00 start, else `max(1e-4, exp(-0.5 * min(d, 240) / 240))`
with `d` the absolute distance of the begin minutes from the period
midpoint. -/
noncomputable def spec_time_score (p : String) (schedule : List SectionTime) : ℝ :=
  match spec_midpoint p with
  | none => 0
  | some mid =>
    let contribs := schedule.map (fun s =>
      if s.begin_time = ⟨0, 0⟩ then (0.5 : ℝ)
      else
        let d := |(s.begin_time.toMinutes : ℝ) - mid|
        max 0.0001 (Real.exp (-(0.5 : ℝ) * min d 240 / 240)))
    contribs.sum / contribs.length

/-- Spec-side time score with the `min(d, 240)` clamp removed: the amended
form of claim C3 that the source actually computes. -/
noncomputable def spec_time_score_unclamped (p : String) (schedule : List SectionTime) : ℝ :=
  match spec_midpoint p with
  | none => 0
  | some mid =>
    let contribs := schedule.map (fun s =>
      if s.begin_time = ⟨0, 0⟩ then (0.5 : ℝ)
      else
        let d := |(s.begin_time.toMinutes : ℝ) - mid|
        max 0.0001 (Real.exp (-(0.5 : ℝ) * d / 240)))
    contribs.sum / contribs.length

/-- Spec-side counted day codes, following claim C4 verbatim: only codes in
M, T, W, R, F are counted, and meetings whose day field is a sentinel
(ONLINE or ARR) contribute nothing. -/
def spec_weekday_chars (schedule : List SectionTime) : List Char :=
  ((schedule.filter (fun s =>
      !(s.days = "ONLINE".toList || s.days = "ARR".toList))).flatMap
    (fun s => s.days)).filter (fun c => c ∈ (['M', 'T', 'W', 'R', 'F'] : List Char))

/-- Spec-side day match score, following claim C4 verbatim: over the counted
codes of `spec_weekday_chars`, `1 - non_preferred/total` clamped below at
1e-4, and 0 when the total is 0. -/
noncomputable def spec_match_score (prefs : TimePreference)
    (schedule : List SectionTime) : ℝ :=
  let cs := spec_weekday_chars schedule
  if cs.length = 0 then 0
  else max (1 - ((cs.countP (fun c => !(c ∈ prefs.preferred_days)) : ℝ) / cs.length)) 0.0001

/-- Character-level match score: the amended form of claim C4.  Every
character of every `days` string is counted (sentinel letters and weekend
codes included); the score is `1 - non_preferred/total` clamped below at
`MIN_SCORE`, and 0 when there are no characters. -/
noncomputable def char_match_score (prefs : TimePreference)
    (schedule : List SectionTime) : ℝ :=
  let cs := flat_days schedule
  if cs.length = 0 then 0
  else
    max (1 - ((cs.countP (fun c => !(c ∈ prefs.preferred_days)) : ℝ) / cs.length)) MIN_SCORE

/-- Fixture: a Monday morning meeting (9:00–9:50 on M). -/
def mMon : SectionTime :=
  ⟨['M'], ⟨9, 0⟩, ⟨9, 50⟩⟩

/-- Fixture: an online meeting (days string "ONLINE", 00:00 sentinel times). -/
def mOnline : SectionTime :=
  ⟨"ONLINE".toList, ⟨0, 0⟩, ⟨0, 0⟩⟩

/-- Fixture: an evening meeting starting 18:00, eight hours past the morning
midpoint. -/
def mEvening : SectionTime :=
  ⟨['M'], ⟨18, 0⟩, ⟨18, 50⟩⟩

/-- Fixture: morning preference with only Monday preferred. -/
noncomputable def prefMonday : TimePreference :=
  ⟨"morning", 1 / 2, {'M'}, 1 / 2⟩

/-- Characterisation of the break test inlined in `_is_valid_addition`:
the meeting begins inside the closed break interval. -/
def meeting_in_break (m : SectionTime) (b : BreakTime) : Prop :=
  b.begin_time.toMinutes ≤ m.begin_time.toMinutes ∧
    m.begin_time.toMinutes ≤ b.end_time.toMinutes

instance (m : SectionTime) (b : BreakTime) : Decidable (meeting_in_break m b) :=
  inferInstanceAs (Decidable (_ ∧ _))

/-- Validity characterisation: a section's times may be added exactly when
every new meeting is conflict-free against every placed meeting and begins in
no break. -/
theorem is_valid_addition_eq_true (breaks : List BreakTime)
    (cur times : List SectionTime) :
    is_valid_addition breaks cur times = true ↔
      ∀ m ∈ times, (∀ e ∈ cur, check_conflict m e = false) ∧
        ∀ b ∈ breaks, ¬ meeting_in_break m b := by
  simp [is_valid_addition, meeting_in_break, Time.ble, List.all_eq_true,
    Bool.and_eq_true, Bool.not_eq_true']
  constructor
  · intro h m hm
    refine ⟨fun e he => ((h m hm).1 e he), fun b hb => ?_⟩
    have h3 := (h m hm).2 b hb
    rcases h3 with h3 | h3 <;> omega
  · intro h m hm
    refine ⟨fun e he => ((h m hm).1 e he), fun b hb => ?_⟩
    have h3 := (h m hm).2 b hb
    by_cases hc : b.begin_time.toMinutes ≤ m.begin_time.toMinutes
    · exact Or.inr (h3 hc)
    · exact Or.inl (by omega)

/-- Unfolding of the recursive case of `dfs` into filter-and-bind form. -/
theorem dfs_cons (breaks : List BreakTime) (sections : List (Nat × List SectionTime))
    (rest : List (List (Nat × List SectionTime))) (flat : List SectionTime) :
    dfs breaks (sections :: rest) flat =
      (sections.filter (fun s => is_valid_addition breaks flat s.2)).flatMap
        (fun s => (dfs breaks rest (flat ++ s.2)).map (fun choice => s :: choice)) := by
  induction sections with
  | nil => rfl
  | cons s ss ih =>
    show (if is_valid_addition breaks flat s.2 then _ ++ _ else _) = _
    by_cases h : is_valid_addition breaks flat s.2 = true
    · simp only [h, if_true, List.filter_cons, List.flatMap_cons]
      exact congrArg _ ih
    · simp only [eq_false_of_ne_true h, if_false, List.filter_cons]
      simpa [eq_false_of_ne_true h] using ih

/-- Soundness invariant of the depth-first search: every choice returned by
`dfs` consists of sections whose meetings are compatible with the incoming
flat schedule and with every break, and pairwise compatible with each other
(later additions were checked against earlier ones). -/
theorem dfs_sound (breaks : List BreakTime) :
    ∀ (courses : List (List (Nat × List SectionTime))) (flat : List SectionTime)
      (choice : List (Nat × List SectionTime)), choice ∈ dfs breaks courses flat →
      (∀ s ∈ choice, ∀ m ∈ s.2,
          (∀ e ∈ flat, check_conflict m e = false) ∧ ∀ b ∈ breaks, ¬ meeting_in_break m b)
        ∧ choice.Pairwise
            (fun s1 s2 => ∀ m1 ∈ s1.2, ∀ m2 ∈ s2.2, check_conflict m2 m1 = false) := by
  intro courses
  induction courses with
  | nil =>
    intro flat choice h
    simp only [dfs, List.mem_singleton] at h
    subst h
    simp
  | cons sections rest ih =>
    intro flat choice h
    rw [dfs_cons] at h
    simp only [List.mem_flatMap, List.mem_filter, List.mem_map] at h
    obtain ⟨s, ⟨_hs_mem, hs_valid⟩, choice', hc', rfl⟩ := h
    obtain ⟨ih1, ih2⟩ := ih (flat ++ s.2) choice' hc'
    have hvalid := (is_valid_addition_eq_true breaks flat s.2).mp hs_valid
    refine ⟨?_, ?_⟩
    · intro t ht m hm
      rcases List.mem_cons.mp ht with rfl | ht'
      · exact (hvalid m hm)
      · exact ⟨fun e he => (ih1 t ht' m hm).1 e (List.mem_append_left _ he),
          (ih1 t ht' m hm).2⟩
    · refine List.Pairwise.cons ?_ ih2
      intro t ht m1 hm1 m2 hm2
      exact (ih1 t ht m2 hm2).1 m1 (List.mem_append_right _ hm1)

/-- Conflicts are symmetric: common days and overlapping open time intervals
do not depend on the argument order. -/
theorem check_conflict_comm (a b : SectionTime) :
    check_conflict a b = check_conflict b a := by
  rw [Bool.eq_iff_iff]
  simp only [check_conflict, daysIntersect, Time.blt, Bool.and_eq_true,
    List.any_eq_true, List.elem_iff, decide_eq_true_eq]
  constructor
  · rintro ⟨⟨⟨c, hc1, hc2⟩, h1⟩, h2⟩
    exact ⟨⟨⟨c, hc2, hc1⟩, h2⟩, h1⟩
  · rintro ⟨⟨⟨c, hc1, hc2⟩, h1⟩, h2⟩
    exact ⟨⟨⟨c, hc2, hc1⟩, h2⟩, h1⟩

/-- Offering a complete schedule can only add the offered score to
`seen_scores` (the replace branch also erases the evicted score). -/
theorem offer_complete_seen_subset (max_schedules : Nat) (st : GenState) (score : ℚ)
    (sched : Sched) :
    (offer_complete max_schedules st score sched).seen_scores ⊆
      insert score st.seen_scores := by
  unfold offer_complete
  dsimp only
  split_ifs with h h2 h3
  · exact Finset.subset_insert _ _
  · exact Finset.Subset.refl _
  · exact Finset.insert_subset_insert _ (Finset.erase_subset _ st.seen_scores)
  · exact Finset.subset_insert _ _

/-- Offering a complete schedule increments `schedule_count` exactly when the
score has not been seen. -/
theorem offer_complete_count (max_schedules : Nat) (st : GenState) (score : ℚ)
    (sched : Sched) :
    (offer_complete max_schedules st score sched).schedule_count =
      if score ∈ st.seen_scores then st.schedule_count else st.schedule_count + 1 := by
  unfold offer_complete
  dsimp only
  split_ifs with h h2 h3 <;> rfl

/-- Under the invariant that no upcoming score is currently in `seen_scores`
and upcoming scores are pairwise distinct, every offer increments the
counter. -/
theorem offer_all_count_aux (max_schedules : Nat) :
    ∀ (offers : List (ℚ × Sched)) (st : GenState),
      (offers.map Prod.fst).Nodup →
      (∀ q ∈ offers.map Prod.fst, q ∉ st.seen_scores) →
      (offer_all max_schedules st offers).schedule_count =
        st.schedule_count + offers.length := by
  intro offers
  induction offers with
  | nil => intro st _ _; rfl
  | cons o rest ih =>
    intro st hnodup hfresh
    have hq : o.1 ∉ st.seen_scores := hfresh o.1 (by simp)
    have hstep : (offer_complete max_schedules st o.1 o.2).schedule_count =
        st.schedule_count + 1 := by
      rw [offer_complete_count]
      simp [hq]
    have hrest : ∀ q ∈ rest.map Prod.fst,
        q ∉ (offer_complete max_schedules st o.1 o.2).seen_scores := by
      intro q hqr hmem
      have := offer_complete_seen_subset max_schedules st o.1 o.2 hmem
      rcases Finset.mem_insert.mp this with rfl | hin
      · exact (List.nodup_cons.mp (by simpa using hnodup)).1 hqr
      · exact hfresh q (by simp [hqr]) hin
    have : (offer_all max_schedules (offer_complete max_schedules st o.1 o.2) rest).schedule_count =
        (offer_complete max_schedules st o.1 o.2).schedule_count + rest.length :=
      ih _ (List.nodup_cons.mp (by simpa using hnodup)).2 hrest
    calc (offer_all max_schedules st (o :: rest)).schedule_count
        = (offer_all max_schedules (offer_complete max_schedules st o.1 o.2) rest).schedule_count := rfl
      _ = st.schedule_count + 1 + rest.length := by rw [this, hstep]
      _ = st.schedule_count + (rest.length + 1) := by omega
      _ = st.schedule_count + (o :: rest).length := by simp

/-- Fixture: two overlapping Monday meetings inside one section. -/
def mOv1 : SectionTime :=
  ⟨['M'], ⟨9, 0⟩, ⟨10, 0⟩⟩

/-- Fixture: second overlapping Monday meeting. -/
def mOv2 : SectionTime :=
  ⟨['M'], ⟨9, 10⟩, ⟨10, 10⟩⟩

/-- Fixture: a Tuesday/Thursday meeting 10:00–11:15. -/
def mTR : SectionTime :=
  ⟨['T', 'R'], ⟨10, 0⟩, ⟨11, 15⟩⟩

/-- Fixture: a lunch break 12:00–13:00. -/
def b1200 : BreakTime :=
  ⟨⟨12, 0⟩, ⟨13, 0⟩⟩

/-- Fixture: a break whose closed interval contains minute 0. -/
def bMidnight : BreakTime :=
  ⟨⟨0, 0⟩, ⟨1, 0⟩⟩

/-- Fixture: a meeting that starts strictly before the lunch break but
overlaps it. -/
def mBeforeBreak : SectionTime :=
  ⟨['M'], ⟨11, 30⟩, ⟨12, 30⟩⟩

/-- Fixture: a meeting starting exactly at the lunch break's begin. -/
def mAtBreakStart : SectionTime :=
  ⟨['M'], ⟨12, 0⟩, ⟨12, 50⟩⟩

/-- C1: the top-K buffer does not retain the K highest scores.  With
`max_schedules = 2`, after offering distinct scores 5 and 3 the buffer is
full; offering 4 — which exceeds the minimum retained score 3 — is rejected
(the root of the min-heap of negated scores holds the maximum actual score,
and line 225 compares against it), and offering 6 evicts the retained
maximum 5 rather than the minimum 3. -/
theorem c1_topk_retention_bug :
    ((offer_all 2 initState [(5, []), (3, []), (4, [])]).heap.map
        (fun e => -e.score)) = [5, 3]
      ∧ ((offer_all 2 initState [(5, []), (3, []), (6, [])]).heap.map
        (fun e => -e.score)) = [6, 3]
      ∧ (3 : ℚ) < 4 ∧ (3 : ℚ) < 5 := by
  refine ⟨by decide, by decide, by norm_num, by norm_num⟩

/-- C2 (counterexample): a single course whose only section has two
overlapping meetings on the same day yields a complete schedule containing a
conflicting pair of meetings — intra-section conflicts are never checked. -/
theorem c2_counterexample :
    dfs [] [[(1, [mOv1, mOv2])]] [] = [[(1, [mOv1, mOv2])]]
      ∧ check_conflict mOv1 mOv2 = true
      ∧ ((offer_all 20 initState [(0, [(1, [mOv1, mOv2])])]).heap.map
          (fun e => e.schedule)) = [[(1, [mOv1, mOv2])]] := by
  refine ⟨by decide, by decide, by decide⟩

/-- C2 (amended): for every schedule produced by the depth-first search, no
meeting begins inside any break, and meetings belonging to two distinct
chosen sections never conflict; meetings within one section are not checked
against each other. -/
theorem c2_feasibility (breaks : List BreakTime)
    (courses : List (List (Nat × List SectionTime)))
    (choice : List (Nat × List SectionTime)) (h : choice ∈ dfs breaks courses []) :
    (∀ s ∈ choice, ∀ m ∈ s.2, ∀ b ∈ breaks, ¬ meeting_in_break m b)
      ∧ choice.Pairwise (fun s1 s2 => ∀ m1 ∈ s1.2, ∀ m2 ∈ s2.2,
          check_conflict m1 m2 = false ∧ check_conflict m2 m1 = false) := by
  obtain ⟨h1, h2⟩ := dfs_sound breaks courses [] choice h
  refine ⟨fun s hs m hm => (h1 s hs m hm).2, ?_⟩
  refine h2.imp ?_
  intro s1 s2 hR m1 hm1 m2 hm2
  exact ⟨by rw [check_conflict_comm]; exact hR m1 hm1 m2 hm2, hR m1 hm1 m2 hm2⟩

/-- Witness for C2 (amended) at a concrete two-course input. -/
theorem c2_feasibility_witness :
    [(1, [mMon]), (2, [mTR])] ∈ dfs [b1200] [[(1, [mMon])], [(2, [mTR])]] []
      ∧ ((∀ s ∈ [(1, [mMon]), (2, [mTR])], ∀ m ∈ s.2, ∀ b ∈ [b1200],
            ¬ meeting_in_break m b)
        ∧ List.Pairwise (fun s1 s2 => ∀ m1 ∈ s1.2, ∀ m2 ∈ s2.2,
            check_conflict m1 m2 = false ∧ check_conflict m2 m1 = false)
            [(1, [mMon]), (2, [mTR])]) :=
  ⟨by decide, c2_feasibility [b1200] [[(1, [mMon])], [(2, [mTR])]]
    [(1, [mMon]), (2, [mTR])] (by decide)⟩

/-- C5 (counterexample): two complete schedules with the same score are
offered; the counter ends at 1, not 2 — the increment happens after the
duplicate-score early return. -/
theorem c5_counterexample :
    (offer_all 10 initState [(5, []), (5, [])]).schedule_count = 1
      ∧ (1 : Nat) ≠ 2 := by
  refine ⟨by decide, by decide⟩

/-- C5 (amended): the exposed counter counts the complete schedules that
survive duplicate-score suppression; in particular, when all offered scores
are pairwise distinct it equals the number of complete schedules offered. -/
theorem c5_count_distinct_scores (max_schedules : Nat) (offers : List (ℚ × Sched))
    (h : (offers.map Prod.fst).Nodup) :
    (offer_all max_schedules initState offers).schedule_count = offers.length := by
  have h0 : ∀ q ∈ offers.map Prod.fst, q ∉ initState.seen_scores := by
    intro q _
    simp [initState]
  simpa [initState] using offer_all_count_aux max_schedules offers initState h h0

/-- Witness for C5 (amended) at two distinct scores. -/
theorem c5_count_distinct_scores_witness :
    (offer_all 10 initState [(5, []), (7, [])]).schedule_count = [(5, ([] : Sched)), (7, [])].length :=
  c5_count_distinct_scores 10 [(5, []), (7, [])] (by decide)

/-- C6: a candidate's times are rejected exactly when some new meeting
conflicts with a placed meeting or begins inside some break (both endpoints
included); a meeting that starts strictly before a break but overlaps it is
not rejected by the break rule, and a meeting starting exactly at the
break's begin or end is rejected. -/
theorem c6_break_semantics :
    (∀ (breaks : List BreakTime) (cur times : List SectionTime),
        is_valid_addition breaks cur times = false ↔
          ∃ m ∈ times, (∃ e ∈ cur, check_conflict m e = true)
            ∨ ∃ b ∈ breaks, meeting_in_break m b)
      ∧ (∀ (b : BreakTime) (m : SectionTime),
          m.begin_time.toMinutes < b.begin_time.toMinutes →
          b.begin_time.toMinutes < m.end_time.toMinutes →
          is_valid_addition [b] [] [m] = true)
      ∧ (∀ (b : BreakTime) (m : SectionTime),
          b.begin_time.toMinutes ≤ b.end_time.toMinutes →
          (m.begin_time = b.begin_time ∨ m.begin_time = b.end_time) →
          is_valid_addition [b] [] [m] = false) := by
  have hfalse : ∀ (breaks : List BreakTime) (cur times : List SectionTime),
      is_valid_addition breaks cur times = false ↔
        ∃ m ∈ times, (∃ e ∈ cur, check_conflict m e = true)
          ∨ ∃ b ∈ breaks, meeting_in_break m b := by
    intro breaks cur times
    rw [← Bool.not_eq_true, is_valid_addition_eq_true]
    push_neg
    constructor
    · rintro ⟨m, hm, hbad⟩
      refine ⟨m, hm, ?_⟩
      by_cases hc : ∀ e ∈ cur, check_conflict m e = false
      · obtain ⟨b, hb, hbreak⟩ := hbad hc
        exact Or.inr ⟨b, hb, hbreak⟩
      · push_neg at hc
        obtain ⟨e, he, hne⟩ := hc
        rcases Bool.eq_false_or_eq_true (check_conflict m e) with hcc | hcc
        · exact Or.inl ⟨e, he, hcc⟩
        · exact absurd hcc hne
    · rintro ⟨m, hm, ⟨e, he, hconf⟩ | ⟨b, hb, hbreak⟩⟩
      · exact ⟨m, hm, fun hall => absurd (hall e he) (by simp [hconf])⟩
      · exact ⟨m, hm, fun _ => ⟨b, hb, hbreak⟩⟩
  refine ⟨hfalse, ?_, ?_⟩
  · intro b m h1 _h2
    rw [is_valid_addition_eq_true]
    intro m' hm'
    simp only [List.mem_singleton] at hm'
    subst hm'
    refine ⟨by simp, ?_⟩
    intro b' hb'
    simp only [List.mem_singleton] at hb'
    subst hb'
    intro hin
    exact absurd hin.1 (by omega)
  · intro b m hbe hstart
    rw [hfalse]
    refine ⟨m, by simp, Or.inr ⟨b, by simp, ?_⟩⟩
    rcases hstart with h | h <;> rw [meeting_in_break, h] <;> omega

/-- Witness for C6 at the lunch-break fixtures. -/
theorem c6_break_semantics_witness :
    is_valid_addition [b1200] [] [mBeforeBreak] = true
      ∧ is_valid_addition [b1200] [] [mAtBreakStart] = false :=
  ⟨c6_break_semantics.2.1 b1200 mBeforeBreak (by decide) (by decide),
   c6_break_semantics.2.2 b1200 mAtBreakStart (by decide) (Or.inl rfl)⟩

/-- C7 (counterexample): the character-set intersection the code computes for
sentinel day strings is not empty — ONLINE intersects itself, ARR intersects
itself, and ARR even intersects the timed day set containing Thursday (R). -/
theorem c7_counterexample :
    daysIntersect "ONLINE".toList "ONLINE".toList = true
      ∧ daysIntersect "ARR".toList "ARR".toList = true
      ∧ daysIntersect "ARR".toList ['T', 'R'] = true := by
  refine ⟨by decide, by decide, by decide⟩

/-- C7 (amended): a sentinel meeting (ONLINE or ARR day string, 00:00 begin
and end) never registers a conflict with any meeting, in either argument
order — the time comparisons fail, even though the character-level day
intersection may be non-empty. -/
theorem c7_sentinel_no_conflict (a : SectionTime)
    (_hdays : a.days = "ONLINE".toList ∨ a.days = "ARR".toList)
    (_hb : a.begin_time = ⟨0, 0⟩) (he : a.end_time = ⟨0, 0⟩) (b : SectionTime) :
    check_conflict a b = false ∧ check_conflict b a = false := by
  constructor
  · simp [check_conflict, Time.blt, he, Time.toMinutes]
  · simp [check_conflict, Time.blt, he, Time.toMinutes]

/-- Witness for C7 (amended): the online fixture against the Monday
meeting. -/
theorem c7_sentinel_no_conflict_witness :
    check_conflict mOnline mMon = false ∧ check_conflict mMon mOnline = false :=
  c7_sentinel_no_conflict mOnline (Or.inl rfl) rfl rfl mMon

/-- C10: when some break's closed interval contains minute 0, any candidate
section containing a meeting with the 00:00 sentinel begin time is rejected
by the validity check, and consequently no meeting of any schedule produced
by the search begins at 00:00 — online/arranged sections cannot appear. -/
theorem c10_midnight_break_excludes_online (breaks : List BreakTime)
    (b : BreakTime) (hb : b ∈ breaks) (h0 : b.begin_time.toMinutes = 0) :
    (∀ (flat times : List SectionTime) (m : SectionTime), m ∈ times →
        m.begin_time = ⟨0, 0⟩ → is_valid_addition breaks flat times = false)
      ∧ ∀ (courses : List (List (Nat × List SectionTime)))
          (choice : List (Nat × List SectionTime)), choice ∈ dfs breaks courses [] →
          ∀ s ∈ choice, ∀ m ∈ s.2, m.begin_time ≠ ⟨0, 0⟩ := by
  constructor
  · intro flat times m hm hbegin
    rw [← Bool.not_eq_true, is_valid_addition_eq_true]
    intro hall
    refine (hall m hm).2 b hb ?_
    rw [meeting_in_break, hbegin, h0]
    simp [Time.toMinutes]
  · intro courses choice hchoice s hs m hm hbegin
    have := ((dfs_sound breaks courses [] choice hchoice).1 s hs m hm).2 b hb
    refine this ?_
    rw [meeting_in_break, hbegin, h0]
    simp [Time.toMinutes]

/-- Witness for C10 at a midnight break and the online fixture. -/
theorem c10_midnight_break_excludes_online_witness :
    bMidnight ∈ [bMidnight] ∧ bMidnight.begin_time.toMinutes = 0
      ∧ is_valid_addition [bMidnight] [] [mOnline] = false :=
  ⟨by decide, rfl,
    (c10_midnight_break_excludes_online [bMidnight] bMidnight (by decide) rfl).1
      [] [mOnline] mOnline (by decide) rfl⟩

/-- Shared step for C3: whenever the period lookup succeeds and the code's
midpoint arithmetic produces the spec's midpoint, the code's time score is
the unclamped spec formula. -/
theorem calculate_time_score_eq_unclamped_aux (prefs : TimePreference) (mid : ℝ)
    (t1 t2 : Time) (h1 : time_ranges prefs.preferred_time = some (t1, t2))
    (h2 : spec_midpoint prefs.preferred_time = some mid)
    (h3 : (t1.toMinutes : ℝ) + ((t2.toMinutes : ℝ) - (t1.toMinutes : ℝ)) / 2 = mid)
    (schedule : List SectionTime) (hs : schedule ≠ []) :
    calculate_time_score prefs schedule =
      spec_time_score_unclamped prefs.preferred_time schedule := by
  rw [calculate_time_score, if_neg hs, h1, spec_time_score_unclamped, h2]
  dsimp only
  have hmap : (schedule.map (fun s =>
      if s.begin_time = ⟨0, 0⟩ then (0.5 : ℝ)
      else max (Real.exp (-TIME_DECAY_FACTOR *
        (|(s.begin_time.toMinutes : ℝ) -
          ((t1.toMinutes : ℝ) + ((t2.toMinutes : ℝ) - (t1.toMinutes : ℝ)) / 2)| /
          MAX_MINUTES_DIFF))) MIN_SCORE)) =
      schedule.map (fun s =>
        if s.begin_time = ⟨0, 0⟩ then (0.5 : ℝ)
        else max 0.0001
          (Real.exp (-(0.5 : ℝ) * |(s.begin_time.toMinutes : ℝ) - mid| / 240))) := by
    apply List.map_congr_left
    intro s _
    by_cases hb : s.begin_time = ⟨0, 0⟩
    · simp [hb]
    · rw [if_neg hb, if_neg hb, h3, max_comm]
      rw [TIME_DECAY_FACTOR, MAX_MINUTES_DIFF, MIN_SCORE, mul_div_assoc]
  rw [hmap]

/-- C3 (amended): for the three known periods and a non-empty schedule, the
time score is the mean over meetings of 0.5 for a 00:00 start, else
`max(1e-4, exp(-0.5 * d / 240))` with `d` the unclamped distance from the
period midpoint (600, 840 or 1080 minutes). -/
theorem c3_time_score_formula (prefs : TimePreference) (schedule : List SectionTime)
    (hp : prefs.preferred_time ∈ (["morning", "afternoon", "evening"] : List String))
    (hs : schedule ≠ []) :
    calculate_time_score prefs schedule =
      spec_time_score_unclamped prefs.preferred_time schedule := by
  have hp3 : prefs.preferred_time = "morning" ∨ prefs.preferred_time = "afternoon"
      ∨ prefs.preferred_time = "evening" := by simpa using hp
  rcases hp3 with h | h | h
  · refine calculate_time_score_eq_unclamped_aux prefs 600 ⟨8, 0⟩ ⟨12, 0⟩ ?_ ?_ ?_ schedule hs
    · rw [h]; rfl
    · rw [h]; rfl
    · norm_num [Time.toMinutes]
  · refine calculate_time_score_eq_unclamped_aux prefs 840 ⟨12, 0⟩ ⟨16, 0⟩ ?_ ?_ ?_ schedule hs
    · rw [h]; rfl
    · rw [h]; rfl
    · norm_num [Time.toMinutes]
  · refine calculate_time_score_eq_unclamped_aux prefs 1080 ⟨16, 0⟩ ⟨20, 0⟩ ?_ ?_ ?_ schedule hs
    · rw [h]; rfl
    · rw [h]; rfl
    · norm_num [Time.toMinutes]

/-- Witness for C3 (amended) at the morning preference and a one-meeting
schedule. -/
theorem c3_time_score_formula_witness :
    prefMonday.preferred_time ∈ (["morning", "afternoon", "evening"] : List String)
      ∧ calculate_time_score prefMonday [mMon] =
          spec_time_score_unclamped prefMonday.preferred_time [mMon] :=
  ⟨by simp [prefMonday],
   c3_time_score_formula prefMonday [mMon] (by simp [prefMonday]) (by simp)⟩

/-- C3 (counterexample): for a meeting starting at 18:00 under the morning
preference the distance is 480 minutes; the code computes `exp(-1)` (no
`min(d, 240)` clamp) while the claimed formula gives `exp(-1/2)`. -/
theorem c3_counterexample :
    calculate_time_score prefMonday [mEvening] ≠ spec_time_score "morning" [mEvening] := by
  have hcode : calculate_time_score prefMonday [mEvening] = Real.exp (-1) := by
    rw [calculate_time_score, if_neg (by simp)]
    have : time_ranges prefMonday.preferred_time = some (⟨8, 0⟩, ⟨12, 0⟩) := rfl
    rw [this]
    dsimp only [List.map_cons, List.map_nil]
    rw [if_neg (by simp [mEvening])]
    simp only [mEvening, Time.toMinutes, TIME_DECAY_FACTOR, MAX_MINUTES_DIFF, MIN_SCORE]
    norm_num
    exact le_of_lt (lt_trans (by norm_num) Real.exp_neg_one_gt_d9)
  have hspec : spec_time_score "morning" [mEvening] = Real.exp (-(1 : ℝ) / 2) := by
    rw [spec_time_score]
    have : spec_midpoint "morning" = some 600 := rfl
    rw [this]
    dsimp only [List.map_cons, List.map_nil]
    rw [if_neg (by simp [mEvening])]
    simp only [mEvening, Time.toMinutes]
    norm_num
    refine le_trans (le_of_lt (lt_trans (by norm_num) Real.exp_neg_one_gt_d9)) ?_
    exact Real.exp_le_exp.mpr (by norm_num)
  rw [hcode, hspec]
  exact ne_of_lt (Real.exp_lt_exp.mpr (by norm_num))

/-- The Counter-based sums in `_calculate_preference_match_score` reduce to
length and `countP` of the flat character list. -/
theorem calculate_preference_match_score_eq (prefs : TimePreference) (dc : List Char) :
    calculate_preference_match_score prefs dc =
      if dc.length = 0 then 0
      else
        max (1 - ((dc.countP (fun c => !(c ∈ prefs.preferred_days)) : ℝ) / dc.length))
          MIN_SCORE := by
  rw [calculate_preference_match_score]
  dsimp only
  rw [List.sum_map_count_dedup_eq_length, List.sum_map_count_dedup_filter_eq_countP]
  by_cases h0 : dc.length = 0
  · simp [h0]
  · rw [if_neg h0, if_neg h0]
    have hsplit : dc.length = dc.countP (fun c => decide (c ∈ prefs.preferred_days))
        + dc.countP (fun c => !decide (c ∈ prefs.preferred_days)) := by
      have h := List.length_eq_countP_add_countP
        (fun c => decide (c ∈ prefs.preferred_days)) dc
      simpa only [decide_not, decide_eq_true_eq, Bool.decide_coe] using h
    have hsub : dc.length - dc.countP (fun c => decide (c ∈ prefs.preferred_days)) =
        dc.countP (fun c => !decide (c ∈ prefs.preferred_days)) := by omega
    rw [hsub]

/-- C4 (amended): whenever specific days are preferred (the preferred set is
not all five weekdays), the day score is the character-level match score:
every character of every `days` string is counted — sentinel letters and
weekend codes included — and the score is `1 - non_preferred/total` clamped
below at `MIN_SCORE`, or 0 when there are no characters. -/
theorem c4_day_score_chars (prefs : TimePreference) (schedule : List SectionTime)
    (hpd : prefs.preferred_days ≠ ({'M', 'T', 'W', 'R', 'F'} : Finset Char)) :
    calculate_day_score prefs schedule = char_match_score prefs schedule := by
  by_cases hs : schedule = []
  · subst hs
    simp [calculate_day_score, char_match_score, flat_days]
  · rw [calculate_day_score, if_neg hs, char_match_score]
    dsimp only
    rw [if_neg hpd, calculate_preference_match_score_eq]

/-- Witness for C4 (amended) at the Monday-plus-online fixture. -/
theorem c4_day_score_chars_witness :
    prefMonday.preferred_days ≠ ({'M', 'T', 'W', 'R', 'F'} : Finset Char)
      ∧ calculate_day_score prefMonday [mMon, mOnline] =
          char_match_score prefMonday [mMon, mOnline] :=
  ⟨by decide, c4_day_score_chars prefMonday [mMon, mOnline] (by decide)⟩

/-- C4 (counterexample): with preferred days (only Monday) and a schedule of
one Monday meeting plus one online meeting, the code counts the six letters
of "ONLINE" as day codes and scores 1/7, while the claimed formula — only
weekday codes counted, online contributing nothing — gives 1. -/
theorem c4_counterexample :
    calculate_day_score prefMonday [mMon, mOnline] = 1 / 7
      ∧ spec_match_score prefMonday [mMon, mOnline] = 1
      ∧ ((1 : ℝ) / 7) ≠ 1 := by
  refine ⟨?_, ?_, by norm_num⟩
  · rw [calculate_day_score, if_neg (by simp)]
    dsimp only
    rw [if_neg (by decide), calculate_preference_match_score_eq]
    have hdc : flat_days [mMon, mOnline] = ['M', 'O', 'N', 'L', 'I', 'N', 'E'] := by decide
    rw [hdc]
    have hcount : (['M', 'O', 'N', 'L', 'I', 'N', 'E'].countP
        (fun c => !(c ∈ prefMonday.preferred_days))) = 6 := by decide
    rw [if_neg (by norm_num), hcount, MIN_SCORE]
    norm_num
  · rw [spec_match_score]
    have hcs : spec_weekday_chars [mMon, mOnline] = ['M'] := by decide
    rw [hcs]
    have hcount : (['M'].countP (fun c => !(c ∈ prefMonday.preferred_days))) = 0 := by decide
    rw [if_neg (by norm_num), hcount]
    norm_num

/-- Fixture: a malformed preference input — unknown period "noon", weights 2
and 3 (each outside [0,1], sum 5). -/
noncomputable def malformedPrefs : PrefInput :=
  ⟨some "noon", some 2, some ['M'], some 3⟩

/-- C8 (counterexample): constructing the scorer from the malformed
preferences succeeds — the constructor stores the values unchecked — and the
malformed preference object then reaches score computation, which returns 1
(time score 0 for the unknown period, day score 1, weighted total 3 clamped
to 1). -/
theorem c8_counterexample :
    scorer_init malformedPrefs = ⟨"noon", 2, {'M'}, 3⟩
      ∧ score_schedule (scorer_init malformedPrefs) [mMon] = 1 := by
  have hinit : scorer_init malformedPrefs = ⟨"noon", 2, {'M'}, 3⟩ := by
    rw [scorer_init]
    simp [malformedPrefs]
  refine ⟨hinit, ?_⟩
  rw [hinit, score_schedule, if_neg (by simp)]
  dsimp only
  have htime : calculate_time_score ⟨"noon", 2, {'M'}, 3⟩ [mMon] = 0 := by
    rw [calculate_time_score, if_neg (by simp)]
    rfl
  have hday : calculate_day_score ⟨"noon", 2, {'M'}, 3⟩ [mMon] = 1 := by
    rw [calculate_day_score, if_neg (by simp)]
    dsimp only
    rw [if_neg (by decide), calculate_preference_match_score_eq]
    have hdc : flat_days [mMon] = ['M'] := by decide
    rw [hdc]
    have hcount : (['M'].countP
        (fun c => !(c ∈ (⟨"noon", 2, {'M'}, 3⟩ : TimePreference).preferred_days))) = 0 := by
      decide
    rw [if_neg (by norm_num), hcount, MIN_SCORE]
    norm_num
  rw [htime, hday]
  norm_num

/-- C8 (amended): the scorer constructor rejects nothing; an unknown
preferred period is instead handled at call time, where the period lookup
fails and the time score evaluates to 0. -/
theorem c8_unknown_period_scores_zero (input : PrefInput) (schedule : List SectionTime)
    (h : (scorer_init input).preferred_time ∉
      (["morning", "afternoon", "evening"] : List String)) :
    calculate_time_score (scorer_init input) schedule = 0 := by
  have hnone : time_ranges (scorer_init input).preferred_time = none := by
    simp only [List.mem_cons, List.not_mem_nil, or_false, not_or] at h
    rw [time_ranges, if_neg h.1, if_neg h.2.1, if_neg h.2.2]
  rw [calculate_time_score]
  by_cases hs : schedule = []
  · rw [if_pos hs]
  · rw [if_neg hs, hnone]

/-- Witness for C8 (amended) at the malformed fixture. -/
theorem c8_unknown_period_scores_zero_witness :
    (scorer_init malformedPrefs).preferred_time ∉
        (["morning", "afternoon", "evening"] : List String)
      ∧ calculate_time_score (scorer_init malformedPrefs) [mMon] = 0 :=
  ⟨by simp [scorer_init, malformedPrefs],
   c8_unknown_period_scores_zero malformedPrefs [mMon]
     (by simp [scorer_init, malformedPrefs])⟩

end CourseFlow
